import Mathlib

/-!
Verification of the parserbot repository (a recipe-site crawler).

The development shallow-embeds the two storage-touching modules:

* src/parser.py : quantity parsing, content hashing, taxonomy
  get-or-create, recipe extraction, the insert/update/skip upsert in
  RecipeParser.parse_recipe_page and RecipeParser._save_recipe, and the
  per-URL loop of main.
* src/database.py : DatabaseManager.insert_recipe.

Modelling conventions:

* Python str is modelled by String; the helpers below reproduce the
  exact str methods the source uses (strip, split, replace, slicing),
  restricted to ASCII whitespace and ASCII digits where Python would
  also accept exotic Unicode (no source input exercises the difference).
* Python float is modelled by exact rationals (the structure Dec below,
  a fraction in lowest terms); every numeric literal the claims exercise
  is exactly representable in binary64, so arithmetic agrees with Python
  on them.  The repr of a float (Python str) is reproduced exactly for
  values with a terminating decimal expansion; non-terminating values
  get a truncated expansion (no claim exercises them).
* hashlib.sha256(x.encode()).hexdigest() is modelled by a collision
  free digest function; we use the identity on strings, which preserves
  exactly the equalities and inequalities the program compares hashes
  with.
* SQLite tables are lists of rows in rowid order; INTEGER PRIMARY KEY
  assignment (largest rowid plus one) is the freshId function;
  SELECT ... fetchone() is List.find?; UPDATE/DELETE WHERE are map and
  filter.
* Recursions are written structurally (fuel where needed) so that every
  definition evaluates inside the kernel.
-/

/-- Python str.strip character class, as used by the source (ASCII whitespace). -/
def isPyWs (c : Char) : Bool :=
  c = ' ' ∨ c = '\t' ∨ c = '\n' ∨ c = '\r'

/-- Python str.strip on a character list: drop whitespace at both ends. -/
def stripList (cs : List Char) : List Char :=
  ((cs.dropWhile isPyWs).reverse.dropWhile isPyWs).reverse

/-- Python str.strip. -/
def pyStrip (s : String) : String :=
  (stripList s.toList).asString

/-- Replacement core for Python str.replace, with fuel for structural recursion.
The pattern is assumed nonempty (every pattern in the source is). -/
def replaceListF : Nat → List Char → List Char → List Char → List Char
  | 0, cs, _, _ => cs
  | _ + 1, [], _, _ => []
  | fuel + 1, c :: cs, pat, rep =>
    if pat ≠ [] ∧ pat.isPrefixOf (c :: cs) then
      rep ++ replaceListF fuel ((c :: cs).drop pat.length) pat rep
    else
      c :: replaceListF fuel cs pat rep

/-- Python str.replace (all occurrences, left to right, non overlapping). -/
def pyReplace (s pat rep : String) : String :=
  (replaceListF (s.toList.length + 1) s.toList pat.toList rep.toList).asString

/-- Splitting core for Python str.split(sep), with fuel.  The separator is
assumed nonempty.  Empty pieces are kept, as Python does. -/
def splitSepAux : Nat → List Char → List Char → List Char → List (List Char)
  | 0, cs, _, acc => [acc.reverse ++ cs]
  | _ + 1, [], _, acc => [acc.reverse]
  | fuel + 1, c :: cs, sep, acc =>
    if sep ≠ [] ∧ sep.isPrefixOf (c :: cs) then
      acc.reverse :: splitSepAux fuel ((c :: cs).drop sep.length) sep []
    else
      splitSepAux fuel cs sep (c :: acc)

/-- Python str.split(sep) for a nonempty separator. -/
def pySplitSep (s sep : String) : List String :=
  (splitSepAux (s.toList.length + 1) s.toList sep.toList []).map List.asString

/-- Python str.split() with no argument: split on whitespace runs, dropping
empty pieces. -/
def wsSplitAux : List Char → List Char → List (List Char)
  | [], acc => if acc = [] then [] else [acc.reverse]
  | c :: cs, acc =>
    if isPyWs c then
      if acc = [] then wsSplitAux cs []
      else acc.reverse :: wsSplitAux cs []
    else
      wsSplitAux cs (c :: acc)

/-- Python str.split() with no argument. -/
def pySplitWs (s : String) : List String :=
  (wsSplitAux s.toList []).map List.asString

/-- Python sep.join of a list of strings. -/
def pyJoin (sep : String) (parts : List String) : String :=
  (List.intercalate sep.toList (parts.map String.toList)).asString

/-- Python s[n:] slicing (by code points, like Python indexing). -/
def pyDrop (s : String) (n : Nat) : String :=
  (s.toList.drop n).asString

/-- Value of a list of ASCII digit characters. -/
def digitsToNat (cs : List Char) : Nat :=
  cs.foldl (fun a c => a * 10 + (c.toNat - 48)) 0

/-- Exact rational value of a Python float: numerator and positive
denominator in lowest terms.  Everything the source computes with floats
(fraction conversion and quantity values) is exact on the inputs the
claims exercise, so the exact rationals are a faithful value model. -/
structure Dec where
  num : Int
  den : Nat
deriving DecidableEq

/-- Normalized fraction n / d (for d nonzero; the zero guard is never hit
by the definitions below, which test the denominator before dividing). -/
def normDec (n d : Int) : Dec :=
  if d = 0 then ⟨0, 0⟩
  else
    let na := n.natAbs
    let da := d.natAbs
    let g := Nat.gcd na da
    let neg : Bool := (decide (n < 0)) != (decide (d < 0))
    ⟨if neg then -((na / g : Nat) : Int) else ((na / g : Nat) : Int), da / g⟩

/-- Python float division x / y (y nonzero). -/
def decDiv (x y : Dec) : Dec :=
  normDec (x.num * (y.den : Int)) ((x.den : Int) * y.num)

/-- Value digits * 10 ^ e / 10 ^ flen, the number denoted by a float
literal with integer-and-fraction digit run digits, flen fraction digits
and exponent e. -/
def decOfParts (digits : Nat) (flen : Nat) (e : Int) : Dec :=
  if 0 ≤ e then normDec ((digits : Int) * (10 : Int) ^ e.toNat) ((10 : Int) ^ flen)
  else normDec (digits : Int) ((10 : Int) ^ flen * (10 : Int) ^ (-e).toNat)

/-- Multiply a Dec by 10 ^ k (normalized). -/
def decMulPow10 (q : Dec) (k : Nat) : Dec :=
  normDec (q.num * (10 : Int) ^ k) (q.den : Int)

/-- Parse the exponent tail of a Python float literal: either nothing, or
an e/E followed by an optionally signed nonempty digit run. -/
def pyFloatExp (cs : List Char) : Option Int :=
  match cs with
  | [] => some 0
  | c :: t =>
    if c = 'e' ∨ c = 'E' then
      let signed : Bool × List Char :=
        match t with
        | '+' :: u => (false, u)
        | '-' :: u => (true, u)
        | _ => (false, t)
      let ed := signed.2.takeWhile Char.isDigit
      let rest := signed.2.dropWhile Char.isDigit
      if ed = [] ∨ rest ≠ [] then none
      else some (if signed.1 then -(digitsToNat ed : Int) else (digitsToNat ed : Int))
    else none

/-- Python float(s) on the literal subset the source can produce: optional
surrounding whitespace, optional sign, digits with at most one decimal
point (at least one digit overall), optional exponent.  Underscored
literals, inf and nan are not modelled; no source input produces them. -/
def pyFloat (s : String) : Option Dec :=
  let cs0 := stripList s.toList
  let signed : Bool × List Char :=
    match cs0 with
    | '+' :: t => (false, t)
    | '-' :: t => (true, t)
    | _ => (false, cs0)
  let ip := signed.2.takeWhile Char.isDigit
  let r1 := signed.2.dropWhile Char.isDigit
  let fracRest : List Char × List Char :=
    match r1 with
    | '.' :: t => (t.takeWhile Char.isDigit, t.dropWhile Char.isDigit)
    | _ => ([], r1)
  let fp := fracRest.1
  let r2 := fracRest.2
  if ip = [] ∧ fp = [] then none
  else
    match pyFloatExp r2 with
    | none => none
    | some e =>
      let v := decOfParts (digitsToNat (ip ++ fp)) fp.length e
      some (if signed.1 then ⟨-v.num, v.den⟩ else v)

/-- Number of decimal digits needed to write q exactly, when at most 17. -/
def decDigits (q : Dec) : Option Nat :=
  (List.range 18).find? (fun k => (decMulPow10 q k).den = 1)

/-- Decimal rendering of a nonnegative Dec with a terminating expansion
of at most 17 digits; this is Python str(float) on such values.  Other
values get a 17 digit truncation (never produced by the source inputs the
claims exercise, where Python would print a shortest binary64 repr). -/
def pyFloatStrNN (q : Dec) : String :=
  if q.den = 1 then (toString q.num).append ".0"
  else
    let k := (decDigits q).getD 17
    let n := ((decMulPow10 q k).num.toNat / (decMulPow10 q k).den)
    let s := toString n
    let s := if s.length ≤ k then (List.replicate (k + 1 - s.length) '0').asString.append s else s
    ((s.toList.take (s.toList.length - k)).asString.append ".").append (s.toList.drop (s.toList.length - k)).asString

/-- Python str(x) for a float x, on the value class described at pyFloatStrNN. -/
def pyFloatStr (q : Dec) : String :=
  if q.num < 0 then "-".append (pyFloatStrNN ⟨-q.num, q.den⟩) else pyFloatStrNN q

/-- Source: parser.py, the vulgar fraction replacements at the top of
parse_quantity: text.replace half then quarter then three quarters. -/
def vulgarReplace (t : String) : String :=
  pyReplace (pyReplace (pyReplace t "½" "0.5") "¼" "0.25") "¾" "0.75"

/-- Source: parser.py parse_quantity loop body for a token containing a
slash: numerator, denominator = part.split(slash); replaced by
str(float(numerator) / float(denominator)).  The tuple unpacking raises
unless the split yields exactly two pieces; float parse failures and a
zero denominator raise as well; a raise is modelled as none. -/
def convertFractionTok (part : String) : Option String :=
  if part.toList.contains '/' then
    match pySplitSep part "/" with
    | [a, b] =>
      match pyFloat a, pyFloat b with
      | some x, some y => if y.num = 0 then none else some (pyFloatStr (decDiv x y))
      | _, _ => none
    | _ => none
  else some part

/-- Source: parser.py parse_quantity try body, applied to the text after
vulgar fraction replacement.  none models an exception reaching the
except handler. -/
def parseQuantityAux (t : String) : Option (Dec × String) := do
  let parts := pySplitWs t
  let parts2 ← parts.mapM convertFractionTok
  let cleaned := pyJoin " " parts2
  let qchars := cleaned.toList.filter (fun c => c.isDigit ∨ c = '.' ∨ c = ',')
  let qstr := pyStrip (pyReplace qchars.asString "," ".")
  let q ← pyFloat qstr
  let unit := pyStrip (pyDrop cleaned qstr.length)
  some (q, unit)

/-- Source: parser.py parse_quantity.  Returns (quantity, unit); on any
exception inside the try body it returns (None, text), where text has
already been reassigned to the vulgar fraction replacement of the
input. -/
def parse_quantity (text : String) : Option Dec × String :=
  let replaced := vulgarReplace text
  match parseQuantityAux replaced with
  | some r => (some r.1, r.2)
  | none => (none, replaced)

/-- Row of one of the four taxonomy tables (cuisine, category, dish_type,
purpose): id INTEGER PRIMARY KEY, name TEXT UNIQUE. -/
structure TaxRow where
  id : Nat
  name : String
deriving DecidableEq

/-- Row of the recipe table of parser.py (init_db): id INTEGER PRIMARY KEY,
title, url TEXT UNIQUE, four taxonomy references, content_hash,
last_updated (timestamps modelled as Nat). -/
structure RecipeRow where
  id : Nat
  title : String
  url : String
  cuisine_id : Option Nat
  category_id : Option Nat
  dish_type_id : Option Nat
  purpose_id : Option Nat
  content_hash : String
  last_updated : Nat
deriving DecidableEq

/-- Row of the ingredient table of parser.py: id INTEGER PRIMARY KEY,
recipe_id, name, quantity REAL (nullable), unit. -/
structure IngredientRow where
  id : Nat
  recipe_id : Nat
  name : String
  quantity : Option Dec
  unit : String
deriving DecidableEq

/-- The parser.py database: each table is its list of rows in rowid
order. -/
structure DB where
  cuisine : List TaxRow
  category : List TaxRow
  dish_type : List TaxRow
  purpose : List TaxRow
  recipe : List RecipeRow
  ingredient : List IngredientRow
deriving DecidableEq

/-- The empty database produced by init_db on a fresh file. -/
def emptyDB : DB :=
  ⟨[], [], [], [], [], []⟩

/-- SQLite INTEGER PRIMARY KEY assignment for an insert that does not give
an id: one more than the largest existing rowid. -/
def freshId (ids : List Nat) : Nat :=
  ids.foldr max 0 + 1

/-- Source: parser.py get_or_create(table, name, cursor).  SELECT id FROM
table WHERE name = ?; if a row is found return its id, else INSERT the
name and return cursor.lastrowid.  The cursor is modelled by passing the
table in and out. -/
def get_or_create (rows : List TaxRow) (name : String) : Nat × List TaxRow :=
  match rows.find? (fun r => r.name = name) with
  | some r => (r.id, rows)
  | none =>
    let i := freshId (rows.map (fun r => r.id))
    (i, rows ++ [⟨i, name⟩])

/-- Source: parser.py calculate_hash(content) =
hashlib.sha256(content.encode()).hexdigest().  The digest is modelled as
a collision free function of the input; we use the identity, which
preserves exactly the hash equalities and inequalities the program
compares. -/
def calculate_hash (content : String) : String :=
  content

/-- A fetched detail page, as seen through the BeautifulSoup queries the
source makes (the HTML library is an external collaborator):
text is response.text (the raw markup, also the hash input);
titleElem is the text of soup.find h1 itemprop name, when present;
aboutRows are the (th.text, td.text) pairs of the recipe_about table
(absent table = no rows); ingrItems are the li texts of the ingr block
(absent block = no items). -/
structure Page where
  text : String
  titleElem : Option String
  aboutRows : List (String × String)
  ingrItems : List String
deriving DecidableEq

/-- The record dict built by RecipeParser._extract_recipe_data. -/
structure RecipeData where
  url : String
  content_hash : String
  last_updated : Nat
  title : String
  category : Option Nat
  cuisine : Option Nat
  dish_type : Option Nat
  purpose : Option Nat
deriving DecidableEq

/-- Python dict lookup over the characteristics pairs (last write wins,
as repeated keys overwrite in a dict). -/
def dictGet (l : List (String × String)) (k : String) : Option String :=
  l.foldl (fun acc p => if p.1 = k then some p.2 else acc) none

/-- The characteristics dict of _extract_recipe_data: for each table row,
key is th.text stripped with colons removed, value is td.text
stripped. -/
def characteristicsOf (page : Page) : List (String × String) :=
  page.aboutRows.map (fun p => (pyReplace (pyStrip p.1) ":" "", pyStrip p.2))

/-- One axis of the mapping loop in _extract_recipe_data: when the key is
present in characteristics, get_or_create its value in the axis table,
else the field is None. -/
def taxLookup (rows : List TaxRow) (v : Option String) : Option Nat × List TaxRow :=
  match v with
  | some s =>
    let r := get_or_create rows s
    (some r.1, r.2)
  | none => (none, rows)

/-- Source: RecipeParser._extract_recipe_data(soup, url, content_hash).
Builds the record dict (title falls back to the empty string when the
h1 element is missing) and performs the get_or_create calls of the
mapping loop, each touching only its own table. -/
def extract_recipe_data (db : DB) (page : Page) (url content_hash : String) (now : Nat) :
    RecipeData × DB :=
  let title := (page.titleElem.map pyStrip).getD ""
  let chars := characteristicsOf page
  let cat := taxLookup db.category (dictGet chars "Категория")
  let cui := taxLookup db.cuisine (dictGet chars "Кухня")
  let dt := taxLookup db.dish_type (dictGet chars "Тип блюда")
  let pu := taxLookup db.purpose (dictGet chars "Повод")
  (⟨url, content_hash, now, title, cat.1, cui.1, dt.1, pu.1⟩,
   { db with category := cat.2, cuisine := cui.2, dish_type := dt.2, purpose := pu.2 })

/-- One extracted ingredient dict of _extract_ingredients. -/
structure ExtractedIngredient where
  name : String
  quantity : Option Dec
  unit : String
deriving DecidableEq

/-- Source: RecipeParser._extract_ingredients(soup).  Each li text is
stripped; split once at the first separator dash when present; the
quantity part goes through parse_quantity. -/
def extract_ingredients (page : Page) : List ExtractedIngredient :=
  page.ingrItems.map (fun raw =>
    let text := pyStrip raw
    let parts :=
      match pySplitSep text " - " with
      | p0 :: p1 :: rest => (p0, pyJoin " - " (p1 :: rest))
      | _ => (text, "")
    let q := parse_quantity parts.2
    ⟨pyStrip parts.1, q.1, q.2⟩)

/-- The UPDATE statement of _save_recipe applied to one row: mutable
fields and hash are overwritten, id and url are untouched. -/
def updWith (rd : RecipeData) (rid : Nat) (r : RecipeRow) : RecipeRow :=
  if r.id = rid then
    { r with title := rd.title, category_id := rd.category, cuisine_id := rd.cuisine,
             dish_type_id := rd.dish_type, purpose_id := rd.purpose,
             content_hash := rd.content_hash, last_updated := rd.last_updated }
  else r

/-- The row built by the INSERT statement of _save_recipe. -/
def newRow (rd : RecipeData) (rid : Nat) : RecipeRow :=
  { id := rid, title := rd.title, url := rd.url, cuisine_id := rd.cuisine,
    category_id := rd.category, dish_type_id := rd.dish_type, purpose_id := rd.purpose,
    content_hash := rd.content_hash, last_updated := rd.last_updated }

/-- The recipe table write of _save_recipe: UPDATE the existing row by id,
or INSERT a new row and read cursor.lastrowid. -/
def writeRecipeRow (db : DB) (rd : RecipeData) (existing : Option (Nat × String)) : Nat × DB :=
  match existing with
  | some e => (e.1, { db with recipe := db.recipe.map (updWith rd e.1) })
  | none =>
    let rid := freshId (db.recipe.map (fun r => r.id))
    (rid, { db with recipe := db.recipe ++ [newRow rd rid] })

/-- The ingredient insert loop of _save_recipe: one INSERT per extracted
ingredient, each receiving a fresh rowid. -/
def insertIngredients (tbl : List IngredientRow) (rid : Nat) :
    List ExtractedIngredient → List IngredientRow
  | [] => tbl
  | g :: rest =>
    insertIngredients
      (tbl ++ [⟨freshId (tbl.map (fun r => r.id)), rid, g.name, g.quantity, g.unit⟩]) rid rest

/-- Source: RecipeParser._save_recipe(recipe_data, ingredients, existing).
Write the recipe row (update when existing, insert otherwise), DELETE
the ingredient rows of that recipe id, and re-insert the extracted
ingredients as a batch. -/
def save_recipe (db : DB) (rd : RecipeData) (ingrs : List ExtractedIngredient)
    (existing : Option (Nat × String)) : DB :=
  let w := writeRecipeRow db rd existing
  let kept := w.2.ingredient.filter (fun g => ¬ g.recipe_id = w.1)
  { w.2 with ingredient := insertIngredients kept w.1 ingrs }

/-- The three way outcome of processing one URL, labelling which branch of
parse_recipe_page ran (the branches log Added, Updating, and No changes
detected respectively). -/
inductive Outcome
  | inserted
  | updated
  | unchanged
deriving DecidableEq

/-- SELECT id, content_hash FROM recipe WHERE url = ? with fetchone: the
first row in rowid order whose url matches. -/
def findRecipe (db : DB) (url : String) : Option RecipeRow :=
  db.recipe.find? (fun r => r.url = url)

/-- Source: RecipeParser.parse_recipe_page(url).  Fetch the page (the
fetch is modelled as a total function from url to page), hash the raw
response text, look the url up; return with no write when the stored
hash matches; otherwise extract and save.  now models datetime.now(). -/
def parse_recipe_page (db : DB) (url : String) (pages : String → Page) (now : Nat) :
    Outcome × DB :=
  let page := pages url
  let content_hash := calculate_hash page.text
  match findRecipe db url with
  | some r =>
    if r.content_hash = content_hash then (.unchanged, db)
    else
      let ex := extract_recipe_data db page url content_hash now
      (.updated, save_recipe ex.2 ex.1 (extract_ingredients page) (some (r.id, r.content_hash)))
  | none =>
    let ex := extract_recipe_data db page url content_hash now
    (.inserted, save_recipe ex.2 ex.1 (extract_ingredients page) none)

/-- Source: the URL loop of main(): process each url in order, committing
after each one (parse_recipe_page swallows its own exceptions, so on the
fault free paths modelled here the commit always runs; the rollback
branch of main is reachable only when the commit itself fails). -/
def run (db : DB) (urls : List String) (pages : String → Page) (now : Nat) :
    List Outcome × DB :=
  match urls with
  | [] => ([], db)
  | u :: rest =>
    let s := parse_recipe_page db u pages now
    let t := run s.2 rest pages now
    (s.1 :: t.1, t.2)

/-- A storage fault injected into _save_recipe: the recipe UPDATE or
INSERT statement raises, the ingredient DELETE raises, or the i-th
ingredient INSERT raises. -/
inductive SaveFault
  | atWrite
  | atDelete
  | atIngr (i : Nat)
deriving DecidableEq

/-- Ingredient insert loop under an injected fault at index i: the first i
inserts execute, then the statement raises (when i is within the list).
Returns (raised, table state). -/
def insertIngredientsFaulty (tbl : List IngredientRow) (rid : Nat) :
    List ExtractedIngredient → Nat → Bool × List IngredientRow
  | [], _ => (false, tbl)
  | _ :: _, 0 => (true, tbl)
  | g :: rest, i + 1 =>
    insertIngredientsFaulty
      (tbl ++ [⟨freshId (tbl.map (fun r => r.id)), rid, g.name, g.quantity, g.unit⟩]) rid rest i

/-- _save_recipe under an injected storage fault.  Statements before the
faulting one take effect on the connection (they are cursor writes that
main later commits); the raise propagates out of _save_recipe (its own
except handler logs and re-raises).  Returns (raised, connection state). -/
def save_recipe_faulty (db : DB) (rd : RecipeData) (ingrs : List ExtractedIngredient)
    (existing : Option (Nat × String)) (fault : Option SaveFault) : Bool × DB :=
  if fault = some SaveFault.atWrite then (true, db)
  else
    let w := writeRecipeRow db rd existing
    if fault = some SaveFault.atDelete then (true, w.2)
    else
      let kept := w.2.ingredient.filter (fun g => ¬ g.recipe_id = w.1)
      match fault with
      | some (SaveFault.atIngr i) =>
        let r := insertIngredientsFaulty kept w.1 ingrs i
        (r.1, { w.2 with ingredient := r.2 })
      | _ => (false, { w.2 with ingredient := insertIngredients kept w.1 ingrs })

/-- parse_recipe_page under an injected storage fault.  The try/except of
parse_recipe_page catches the raise from _save_recipe, logs it and
returns normally, so the caller sees no exception; the writes made
before the fault (taxonomy get_or_create inserts from extraction and
the statements _save_recipe executed) remain on the connection.  The
first component is none when the fault fired. -/
def parse_recipe_page_faulty (db : DB) (url : String) (pages : String → Page) (now : Nat)
    (fault : Option SaveFault) : Option Outcome × DB :=
  let page := pages url
  let content_hash := calculate_hash page.text
  match findRecipe db url with
  | some r =>
    if r.content_hash = content_hash then (some .unchanged, db)
    else
      let ex := extract_recipe_data db page url content_hash now
      let s := save_recipe_faulty ex.2 ex.1 (extract_ingredients page)
        (some (r.id, r.content_hash)) fault
      (if s.1 then none else some .updated, s.2)
  | none =>
    let ex := extract_recipe_data db page url content_hash now
    let s := save_recipe_faulty ex.2 ex.1 (extract_ingredients page) none fault
    (if s.1 then none else some .inserted, s.2)

/-- The URL loop of main under injected storage faults (faults maps each
url to the fault its save hits, if any).  After each parse_recipe_page
call main executes conn.commit(), which durably commits whatever the
cursor wrote, fault or not, because parse_recipe_page swallowed the
exception.  The loop never aborts. -/
def runFaulty (db : DB) (urls : List String) (pages : String → Page) (now : Nat)
    (faults : String → Option SaveFault) : DB :=
  match urls with
  | [] => db
  | u :: rest => runFaulty (parse_recipe_page_faulty db u pages now (faults u)).2 rest pages now faults

/-- Does the save step of processing url raise under the injected fault?
Spelled out over the same components parse_recipe_page runs: the save is
reached (no skip) and the injected fault fires inside it. -/
def save_raises (db : DB) (url : String) (pages : String → Page) (now : Nat)
    (fault : Option SaveFault) : Bool :=
  let page := pages url
  let content_hash := calculate_hash page.text
  match findRecipe db url with
  | some r =>
    (r.content_hash != content_hash) &&
      (save_recipe_faulty (extract_recipe_data db page url content_hash now).2
        (extract_recipe_data db page url content_hash now).1 (extract_ingredients page)
        (some (r.id, r.content_hash)) fault).1
  | none =>
    (save_recipe_faulty (extract_recipe_data db page url content_hash now).2
      (extract_recipe_data db page url content_hash now).1 (extract_ingredients page)
      none fault).1

/-- Row of the recipes table of database.py. -/
structure Rec2Row where
  id : Nat
  title : String
  url : String
  image_url : String
  category_id : Option Nat
  calories : String
  proteins : String
  fats : String
  carbohydrates : String
  content_hash : String
deriving DecidableEq

/-- Row of the ingredients table of database.py. -/
structure Ingr2Row where
  id : Nat
  name : String
  url : String
deriving DecidableEq

/-- Row of the recipe_ingredients table of database.py. -/
structure RecIngr2Row where
  recipe_id : Nat
  ingredient_id : Nat
  quantity : String
  unit : String
  component : String
  is_compound : Nat
deriving DecidableEq

/-- The database.py store (categories omitted: insert_recipe never touches
them). -/
structure DbmState where
  recipes : List Rec2Row
  ingredients : List Ingr2Row
  recipe_ingredients : List RecIngr2Row
deriving DecidableEq

/-- One ingredient dict of the recipe_data passed to insert_recipe. -/
structure IngrInput where
  name : String
  url : String
  quantity : String
  unit : String
  component : String
  is_compound : Nat
deriving DecidableEq

/-- The recipe_data dict passed to DatabaseManager.insert_recipe. -/
structure RecipeInput where
  title : String
  url : String
  image_url : String
  category_id : Option Nat
  calories : String
  proteins : String
  fats : String
  carbohydrates : String
  ingredients : List IngrInput
deriving DecidableEq

/-- Python str() of the ingredients list, as concatenated into the hash
argument of insert_recipe.  Its content can never influence behaviour,
because the attribute lookup on the resulting str raises regardless of
the string value, so it is modelled as a constant. -/
def pyStrOfIngredients (_ : List IngrInput) : String :=
  ""

/-- The content_hash expression of DatabaseManager.insert_recipe:
hashlib.sha256((title + url + str(ingredients)).hexdigest()).  A Python
str has no attribute hexdigest, so evaluating the argument raises
AttributeError on every input, before sha256 is applied and before any
SQL statement of the function runs.  The unconditional error is the
faithful model. -/
def insertRecipeHash (_ : String) : Except Unit String :=
  Except.error ()

/-- The SQL body of insert_recipe after the hash computation, modelled for
completeness; it is unreachable because insertRecipeHash always raises.
INSERT OR REPLACE INTO recipes deletes any row with the conflicting url
and inserts a fresh row; the loop INSERT OR IGNOREs each ingredient
name; the dedented statements after the loop then link only the last
ingredient (raising when the list is empty, since the loop variable is
unbound). -/
def insertRecipeBody (s : DbmState) (rd : RecipeInput) (h : String) : Except Unit (Nat × DbmState) :=
  let recipes1 := s.recipes.filter (fun r => ¬ r.url = rd.url)
  let rid := freshId (s.recipes.map (fun r => r.id))
  let recipes2 := recipes1 ++ [⟨rid, rd.title, rd.url, rd.image_url, rd.category_id,
    rd.calories, rd.proteins, rd.fats, rd.carbohydrates, h⟩]
  let ingredients2 := rd.ingredients.foldl
    (fun tbl g =>
      if (tbl.find? (fun r => r.name = g.name)).isSome then tbl
      else tbl ++ [⟨freshId (tbl.map (fun r => r.id)), g.name, g.url⟩])
    s.ingredients
  match rd.ingredients.getLast? with
  | none => Except.error ()
  | some lastG =>
    match ingredients2.find? (fun r => r.name = lastG.name) with
    | none => Except.error ()
    | some row =>
      let links := (s.recipe_ingredients.filter
        (fun l => ¬ (l.recipe_id = rid ∧ l.ingredient_id = row.id))) ++
        [⟨rid, row.id, lastG.quantity, lastG.unit, lastG.component, lastG.is_compound⟩]
      Except.ok (rid, ⟨recipes2, ingredients2, links⟩)

/-- Source: DatabaseManager.insert_recipe(recipe_data).  The try body
computes the content hash first; since that expression always raises,
the except handler logs, rolls the transaction back and returns None,
so the store is left exactly as it was. -/
def insert_recipe (s : DbmState) (rd : RecipeInput) : Option Nat × DbmState :=
  match insertRecipeHash (rd.title ++ rd.url ++ pyStrOfIngredients rd.ingredients) with
  | Except.error _ => (none, s)
  | Except.ok h =>
    match insertRecipeBody s rd h with
    | Except.error _ => (none, s)
    | Except.ok r => (some r.1, r.2)

/-- The canonical extracted fields of a page: title, taxonomy
characteristics and line items, exactly as the extraction code produces
them (the source extracts no separate body text field). -/
def canonicalFields (page : Page) : String × List (String × String) × List ExtractedIngredient :=
  ((page.titleElem.map pyStrip).getD "", characteristicsOf page, extract_ingredients page)

/-- Recipe ids are pairwise distinct (INTEGER PRIMARY KEY). -/
def IdsOk (db : DB) : Prop :=
  (db.recipe.map (fun r => r.id)).Nodup

/-- Recipe urls are pairwise distinct (url TEXT UNIQUE). -/
def UrlsOk (db : DB) : Prop :=
  (db.recipe.map (fun r => r.url)).Nodup

/-- The stored row for url carries the hash of the page the fetch function
currently serves for it. -/
def HashOk (db : DB) (pages : String → Page) (u : String) : Prop :=
  ∃ r, findRecipe db u = some r ∧ r.content_hash = calculate_hash (pages u).text

/-- The ingredient rows of one recipe id, projected to their data fields. -/
def ingredientsFor (db : DB) (rid : Nat) : List (String × Option Dec × String) :=
  (db.ingredient.filter (fun g => g.recipe_id = rid)).map (fun g => (g.name, g.quantity, g.unit))

/-- The data fields of a list of extracted ingredients. -/
def extractedProj (gs : List ExtractedIngredient) : List (String × Option Dec × String) :=
  gs.map (fun g => (g.name, g.quantity, g.unit))

/-- Fixture: a detail page with title, one characteristic and one
ingredient, raw markup text markup-A. -/
def pageA : Page :=
  ⟨"markup-A", some "T", [("Кухня:", "R")], ["s - 300 г"]⟩

/-- Fixture: the same extracted fields as pageA under different raw
markup. -/
def pageB : Page :=
  ⟨"markup-B", some "T", [("Кухня:", "R")], ["s - 300 г"]⟩

/-- Fixture fetch functions serving one fixed page for every url. -/
def pagesA : String → Page := fun _ => pageA

/-- Fixture fetch function serving pageB. -/
def pagesB : String → Page := fun _ => pageB

/-- Fixture: a detail page with no title element. -/
def pageNoTitle : Page :=
  ⟨"body", none, [], ["s - 300 г"]⟩

/-- Fixture fetch function serving pageNoTitle. -/
def pagesNoTitle : String → Page := fun _ => pageNoTitle

/-- Fixture: a store already holding url u with an older hash and one
ingredient row. -/
def dbStale : DB :=
  { emptyDB with
    recipe := [⟨1, "T", "u", none, none, none, none, "old", 0⟩],
    ingredient := [⟨1, 1, "s", none, ""⟩] }

/-- Fixture fetch function serving a changed page for url u. -/
def pagesNew : String → Page := fun _ => ⟨"new", some "T", [], ["s - 300 г"]⟩

/-- Fixture fault schedule: every save faults at the first ingredient
insert. -/
def faultsIngr0 : String → Option SaveFault := fun _ => some (SaveFault.atIngr 0)

/-- find? commutes with a map that preserves the predicate. -/
theorem find?_map_pres {α : Type} (l : List α) (f : α → α) (p : α → Bool)
    (hf : ∀ x, p (f x) = p x) :
    (l.map f).find? p = (l.find? p).map f := by
  induction l with
  | nil => rfl
  | cons a t ih =>
    simp only [List.map_cons, List.find?]
    rw [hf a]
    cases hp : p a with
    | true => simp
    | false => simpa using ih

/-- find? over an append when the left part already finds a row. -/
theorem find?_append_some {α : Type} {l₁ : List α} (l₂ : List α) {p : α → Bool} {a : α}
    (h : l₁.find? p = some a) :
    (l₁ ++ l₂).find? p = some a := by
  induction l₁ with
  | nil => simp [List.find?] at h
  | cons b t ih =>
    simp only [List.find?, List.cons_append] at h ⊢
    cases hp : p b with
    | true => simpa [hp] using h
    | false =>
      rw [hp] at h
      simpa [hp] using ih h

/-- find? over an append when the left part finds nothing. -/
theorem find?_append_none {α : Type} {l₁ : List α} (l₂ : List α) {p : α → Bool}
    (h : l₁.find? p = none) :
    (l₁ ++ l₂).find? p = l₂.find? p := by
  induction l₁ with
  | nil => simp
  | cons b t ih =>
    simp only [List.find?, List.cons_append] at h ⊢
    cases hp : p b with
    | true => simp [hp] at h
    | false =>
      rw [hp] at h
      simpa [hp] using ih h

/-- Every member of a list is at most its foldr max. -/
theorem le_foldr_max (xs : List Nat) : ∀ x ∈ xs, x ≤ xs.foldr max 0 := by
  induction xs with
  | nil => intro x hx; cases hx
  | cons a t ih =>
    intro x hx
    rcases List.mem_cons.mp hx with h | h
    · subst h
      exact le_max_left _ _
    · exact le_trans (ih x h) (le_max_right _ _)

/-- A fresh id is really fresh. -/
theorem freshId_not_mem (xs : List Nat) : freshId xs ∉ xs := by
  intro h
  have h2 := le_foldr_max xs _ h
  simp only [freshId] at h2
  omega

/-- The update function of _save_recipe does not change the url. -/
@[simp] theorem updWith_url (rd : RecipeData) (rid : Nat) (r : RecipeRow) :
    (updWith rd rid r).url = r.url := by
  unfold updWith
  split <;> rfl

/-- The update function of _save_recipe does not change the id. -/
@[simp] theorem updWith_id (rd : RecipeData) (rid : Nat) (r : RecipeRow) :
    (updWith rd rid r).id = r.id := by
  unfold updWith
  split <;> rfl

/-- Extraction only writes taxonomy tables: the recipe table is untouched. -/
@[simp] theorem extract_recipe_table (db : DB) (page : Page) (url h : String) (now : Nat) :
    (extract_recipe_data db page url h now).2.recipe = db.recipe := rfl

/-- Extraction only writes taxonomy tables: the ingredient table is
untouched. -/
@[simp] theorem extract_ingredient_table (db : DB) (page : Page) (url h : String) (now : Nat) :
    (extract_recipe_data db page url h now).2.ingredient = db.ingredient := rfl

/-- The record built by extraction carries the url it was given. -/
@[simp] theorem extract_rd_url (db : DB) (page : Page) (url h : String) (now : Nat) :
    (extract_recipe_data db page url h now).1.url = url := rfl

/-- The record built by extraction carries the hash it was given. -/
@[simp] theorem extract_rd_hash (db : DB) (page : Page) (url h : String) (now : Nat) :
    (extract_recipe_data db page url h now).1.content_hash = h := rfl

/-- The record built by extraction carries the stripped title, default
empty. -/
@[simp] theorem extract_rd_title (db : DB) (page : Page) (url h : String) (now : Nat) :
    (extract_recipe_data db page url h now).1.title = (page.titleElem.map pyStrip).getD "" := rfl

/-- parse_recipe_page on an unseen url: the inserted branch, spelled out. -/
theorem parse_page_none (db : DB) (url : String) (pages : String → Page) (now : Nat)
    (h : findRecipe db url = none) :
    parse_recipe_page db url pages now =
      (Outcome.inserted,
        save_recipe (extract_recipe_data db (pages url) url (calculate_hash (pages url).text) now).2
          (extract_recipe_data db (pages url) url (calculate_hash (pages url).text) now).1
          (extract_ingredients (pages url)) none) := by
  simp [parse_recipe_page, h]

/-- parse_recipe_page on a seen url with matching hash: no write at all. -/
theorem parse_page_same (db : DB) (url : String) (pages : String → Page) (now : Nat)
    (r : RecipeRow) (h1 : findRecipe db url = some r)
    (h2 : r.content_hash = calculate_hash (pages url).text) :
    parse_recipe_page db url pages now = (Outcome.unchanged, db) := by
  simp [parse_recipe_page, h1, h2]

/-- parse_recipe_page on a seen url with differing hash: the updated
branch, spelled out. -/
theorem parse_page_diff (db : DB) (url : String) (pages : String → Page) (now : Nat)
    (r : RecipeRow) (h1 : findRecipe db url = some r)
    (h2 : ¬ r.content_hash = calculate_hash (pages url).text) :
    parse_recipe_page db url pages now =
      (Outcome.updated,
        save_recipe (extract_recipe_data db (pages url) url (calculate_hash (pages url).text) now).2
          (extract_recipe_data db (pages url) url (calculate_hash (pages url).text) now).1
          (extract_ingredients (pages url)) (some (r.id, r.content_hash))) := by
  simp [parse_recipe_page, h1, h2]

/-- The recipe table after an inserting save. -/
theorem save_none_recipe (db : DB) (rd : RecipeData) (gs : List ExtractedIngredient) :
    (save_recipe db rd gs none).recipe =
      db.recipe ++ [newRow rd (freshId (db.recipe.map (fun r => r.id)))] := rfl

/-- The ingredient table after an inserting save. -/
theorem save_none_ingredient (db : DB) (rd : RecipeData) (gs : List ExtractedIngredient) :
    (save_recipe db rd gs none).ingredient =
      insertIngredients
        (db.ingredient.filter (fun g => ¬ g.recipe_id = freshId (db.recipe.map (fun r => r.id))))
        (freshId (db.recipe.map (fun r => r.id))) gs := rfl

/-- The recipe table after an updating save. -/
theorem save_some_recipe (db : DB) (rd : RecipeData) (gs : List ExtractedIngredient)
    (e : Nat × String) :
    (save_recipe db rd gs (some e)).recipe = db.recipe.map (updWith rd e.1) := rfl

/-- The ingredient table after an updating save. -/
theorem save_some_ingredient (db : DB) (rd : RecipeData) (gs : List ExtractedIngredient)
    (e : Nat × String) :
    (save_recipe db rd gs (some e)).ingredient =
      insertIngredients (db.ingredient.filter (fun g => ¬ g.recipe_id = e.1)) e.1 gs := rfl

/-- The ingredient insert loop appends exactly the given rows for the
given recipe id, in order. -/
theorem insertIngredients_filter (rid : Nat) (gs : List ExtractedIngredient) :
    ∀ tbl : List IngredientRow,
      ((insertIngredients tbl rid gs).filter (fun g => g.recipe_id = rid)).map
          (fun g => (g.name, g.quantity, g.unit)) =
        (tbl.filter (fun g => g.recipe_id = rid)).map (fun g => (g.name, g.quantity, g.unit)) ++
          extractedProj gs := by
  induction gs with
  | nil =>
    intro tbl
    simp [insertIngredients, extractedProj]
  | cons g rest ih =>
    intro tbl
    simp only [insertIngredients]
    rw [ih]
    simp [List.filter_append, extractedProj, List.filter]

/-- Deleting a recipe id from the ingredient table leaves nothing with
that id. -/
theorem filter_not_self (l : List IngredientRow) (rid : Nat) :
    (l.filter (fun g => ¬ g.recipe_id = rid)).filter (fun g => g.recipe_id = rid) = [] := by
  induction l with
  | nil => rfl
  | cons a t ih =>
    by_cases h : a.recipe_id = rid <;> simp [List.filter_cons, h, ih]

/-- After a save, the ingredient rows of the saved recipe id are exactly
the extracted ones. -/
theorem ingredientsFor_after_insert (tbl : List IngredientRow) (rid : Nat)
    (gs : List ExtractedIngredient) :
    ((insertIngredients (tbl.filter (fun g => ¬ g.recipe_id = rid)) rid gs).filter
        (fun g => g.recipe_id = rid)).map (fun g => (g.name, g.quantity, g.unit)) =
      extractedProj gs := by
  rw [insertIngredients_filter, filter_not_self]
  rfl

/-- The inserted row carries the url of the record. -/
@[simp] theorem newRow_url (rd : RecipeData) (rid : Nat) : (newRow rd rid).url = rd.url := rfl

/-- The inserted row carries the fresh id. -/
@[simp] theorem newRow_id (rd : RecipeData) (rid : Nat) : (newRow rd rid).id = rid := rfl

/-- The inserted row carries the hash of the record. -/
@[simp] theorem newRow_hash (rd : RecipeData) (rid : Nat) :
    (newRow rd rid).content_hash = rd.content_hash := rfl

/-- The inserted row carries the title of the record. -/
@[simp] theorem newRow_title (rd : RecipeData) (rid : Nat) :
    (newRow rd rid).title = rd.title := rfl

/-- Processing one url preserves distinctness of recipe ids. -/
theorem step_ids (db : DB) (u : String) (pages : String → Page) (now : Nat)
    (h : IdsOk db) : IdsOk (parse_recipe_page db u pages now).2 := by
  cases hf : findRecipe db u with
  | none =>
    rw [parse_page_none db u pages now hf]
    unfold IdsOk at h ⊢
    simp only [save_none_recipe, extract_recipe_table, List.map_append, List.map_cons,
      List.map_nil, List.nodup_append]
    refine ⟨h, List.nodup_singleton _, ?_⟩
    intro x hx hy
    simp only [newRow_id, List.mem_singleton] at hy
    subst hy
    exact freshId_not_mem _ hx
  | some r =>
    by_cases he : r.content_hash = calculate_hash (pages u).text
    · rw [parse_page_same db u pages now r hf he]
      exact h
    · rw [parse_page_diff db u pages now r hf he]
      unfold IdsOk at h ⊢
      simpa only [save_some_recipe, extract_recipe_table, List.map_map, Function.comp_def,
        updWith_id] using h

/-- Processing one url preserves distinctness of recipe urls. -/
theorem step_urls (db : DB) (u : String) (pages : String → Page) (now : Nat)
    (h : UrlsOk db) : UrlsOk (parse_recipe_page db u pages now).2 := by
  cases hf : findRecipe db u with
  | none =>
    rw [parse_page_none db u pages now hf]
    unfold UrlsOk at h ⊢
    simp only [save_none_recipe, extract_recipe_table, List.map_append, List.map_cons,
      List.map_nil, List.nodup_append]
    refine ⟨h, List.nodup_singleton _, ?_⟩
    intro x hx hy
    simp only [newRow_url, extract_rd_url, List.mem_singleton] at hy
    subst hy
    unfold findRecipe at hf
    rw [List.find?_eq_none] at hf
    rcases List.mem_map.mp hx with ⟨r0, hr0, hr0u⟩
    exact hf r0 hr0 (by simp [hr0u])
  | some r =>
    by_cases he : r.content_hash = calculate_hash (pages u).text
    · rw [parse_page_same db u pages now r hf he]
      exact h
    · rw [parse_page_diff db u pages now r hf he]
      unfold UrlsOk at h ⊢
      simpa only [save_some_recipe, extract_recipe_table, List.map_map, Function.comp_def,
        updWith_url] using h

/-- Processing a url leaves its stored hash equal to the hash of the page
currently served for it. -/
theorem step_hash_est (db : DB) (u : String) (pages : String → Page) (now : Nat) :
    HashOk (parse_recipe_page db u pages now).2 pages u := by
  cases hf : findRecipe db u with
  | none =>
    rw [parse_page_none db u pages now hf]
    refine ⟨newRow (extract_recipe_data db (pages u) u
      (calculate_hash (pages u).text) now).1 (freshId (db.recipe.map (fun r => r.id))), ?_, rfl⟩
    unfold findRecipe at hf ⊢
    simp only [save_none_recipe, extract_recipe_table]
    rw [find?_append_none _ hf]
    simp [newRow, List.find?]
  | some r =>
    by_cases he : r.content_hash = calculate_hash (pages u).text
    · rw [parse_page_same db u pages now r hf he]
      exact ⟨r, hf, he⟩
    · rw [parse_page_diff db u pages now r hf he]
      refine ⟨updWith (extract_recipe_data db (pages u) u
        (calculate_hash (pages u).text) now).1 r.id r, ?_, ?_⟩
      · unfold findRecipe at hf ⊢
        simp only [save_some_recipe, extract_recipe_table]
        rw [find?_map_pres _ _ _ (fun x => by rw [updWith_url]), hf]
        rfl
      · unfold updWith
        simp

/-- A found recipe row has the url it was looked up by. -/
theorem findRecipe_url {db : DB} {u : String} {r : RecipeRow}
    (h : findRecipe db u = some r) : r.url = u := by
  unfold findRecipe at h
  have h2 := @List.find?_some RecipeRow (fun x => decide (x.url = u)) r db.recipe h
  exact of_decide_eq_true h2

/-- A found recipe row is a member of the table. -/
theorem findRecipe_mem {db : DB} {u : String} {r : RecipeRow}
    (h : findRecipe db u = some r) : r ∈ db.recipe := by
  unfold findRecipe at h
  exact List.mem_of_find?_eq_some h

/-- Processing any url preserves the stored hash property of every url
(the processed one included), given distinct ids. -/
theorem step_hash_pres (db : DB) (u u2 : String) (pages : String → Page) (now : Nat)
    (hid : IdsOk db) (hh : HashOk db pages u) :
    HashOk (parse_recipe_page db u2 pages now).2 pages u := by
  by_cases hu : u2 = u
  · subst hu
    exact step_hash_est db u2 pages now
  · obtain ⟨r, hr, hrh⟩ := hh
    cases hf2 : findRecipe db u2 with
    | none =>
      rw [parse_page_none db u2 pages now hf2]
      refine ⟨r, ?_, hrh⟩
      unfold findRecipe at hr ⊢
      simp only [save_none_recipe, extract_recipe_table]
      exact find?_append_some _ hr
    | some r2 =>
      by_cases he : r2.content_hash = calculate_hash (pages u2).text
      · rw [parse_page_same db u2 pages now r2 hf2 he]
        exact ⟨r, hr, hrh⟩
      · rw [parse_page_diff db u2 pages now r2 hf2 he]
        have hru : r.url = u := findRecipe_url hr
        have hr2u : r2.url = u2 := findRecipe_url hf2
        have hmem : r ∈ db.recipe := findRecipe_mem hr
        have hmem2 : r2 ∈ db.recipe := findRecipe_mem hf2
        have hne : r ≠ r2 := by
          intro hEq
          exact hu (by rw [← hr2u, ← hEq, hru])
        have hidne : ¬ r.id = r2.id := by
          intro hEq
          exact hne (List.inj_on_of_nodup_map hid hmem hmem2 hEq)
        have hkeep : updWith (extract_recipe_data db (pages u2) u2
            (calculate_hash (pages u2).text) now).1 r2.id r = r := by
          unfold updWith
          rw [if_neg hidne]
        refine ⟨r, ?_, hrh⟩
        unfold findRecipe at hr ⊢
        simp only [save_some_recipe, extract_recipe_table]
        rw [find?_map_pres _ _ _ (fun x => by rw [updWith_url]), hr]
        simp [hkeep]

/-- A whole run preserves distinctness of recipe ids. -/
theorem run_ids (urls : List String) (pages : String → Page) (now : Nat) :
    ∀ db : DB, IdsOk db → IdsOk (run db urls pages now).2 := by
  induction urls with
  | nil => intro db h; exact h
  | cons u rest ih =>
    intro db h
    simp only [run]
    exact ih _ (step_ids db u pages now h)

/-- A whole run preserves distinctness of recipe urls. -/
theorem run_urls (urls : List String) (pages : String → Page) (now : Nat) :
    ∀ db : DB, UrlsOk db → UrlsOk (run db urls pages now).2 := by
  induction urls with
  | nil => intro db h; exact h
  | cons u rest ih =>
    intro db h
    simp only [run]
    exact ih _ (step_urls db u pages now h)

/-- A whole run preserves the stored hash property of any url. -/
theorem run_hash_pres (urls : List String) (pages : String → Page) (now : Nat) (u : String) :
    ∀ db : DB, IdsOk db → HashOk db pages u → HashOk (run db urls pages now).2 pages u := by
  induction urls with
  | nil => intro db _ hh; exact hh
  | cons v rest ih =>
    intro db hid hh
    simp only [run]
    exact ih _ (step_ids db v pages now hid) (step_hash_pres db u v pages now hid hh)

/-- After a run, every processed url stores the hash of the page served
for it. -/
theorem run_hash_est (urls : List String) (pages : String → Page) (now : Nat) :
    ∀ db : DB, IdsOk db → ∀ u ∈ urls, HashOk (run db urls pages now).2 pages u := by
  induction urls with
  | nil => intro db _ u hu; cases hu
  | cons v rest ih =>
    intro db hid u hu
    rcases List.mem_cons.mp hu with h | h
    · subst h
      simp only [run]
      exact run_hash_pres rest pages now u _ (step_ids db u pages now hid)
        (step_hash_est db u pages now)
    · simp only [run]
      exact ih _ (step_ids db v pages now hid) u h

/-- A run over urls whose stored hashes all match is a pure no-op: every
outcome is unchanged and the store is bit for bit the same. -/
theorem run_all_unchanged (urls : List String) (pages : String → Page) (now : Nat) :
    ∀ db : DB, (∀ u ∈ urls, HashOk db pages u) →
      run db urls pages now = (List.replicate urls.length Outcome.unchanged, db) := by
  induction urls with
  | nil => intro db _; rfl
  | cons v rest ih =>
    intro db h
    obtain ⟨r, hr, hrh⟩ := h v (List.mem_cons_self v rest)
    simp only [run, parse_page_same db v pages now r hr hrh]
    rw [ih db (fun u hu => h u (List.mem_cons_of_mem _ hu))]
    simp [List.replicate]

/-- When the table holds distinct names and a lookup succeeds, exactly one
row carries the looked up name. -/
theorem filter_name_length_one (rows : List TaxRow) (name : String)
    (hnd : (rows.map (fun r => r.name)).Nodup) (r : TaxRow)
    (hf : rows.find? (fun x => x.name = name) = some r) :
    (rows.filter (fun x => x.name = name)).length = 1 := by
  induction rows with
  | nil => simp [List.find?] at hf
  | cons a t ih =>
    simp only [List.map_cons, List.nodup_cons] at hnd
    by_cases ha : a.name = name
    · have ht : ∀ b ∈ t, ¬ b.name = name := by
        intro b hb hbn
        exact hnd.1 (List.mem_map.mpr ⟨b, hb, by rw [hbn, ha]⟩)
      have ht2 : t.filter (fun x => x.name = name) = [] :=
        List.filter_eq_nil_iff.mpr (fun b hb => by simpa using ht b hb)
      simp [List.filter_cons, ha, ht2]
    · have hf2 : t.find? (fun x => x.name = name) = some r := by
        simpa [List.find?_cons, ha] using hf
      simp only [List.filter_cons]
      rw [if_neg (by simpa using ha)]
      exact ih hnd.2 hf2

/-- C9: calling get_or_create twice with the same name (no interleaved
writes) returns the same id from both calls, the second call performs no
insert, and the table holds exactly one row with that name. -/
theorem get_or_create_stable (rows : List TaxRow) (name : String)
    (h : (rows.map (fun r => r.name)).Nodup) :
    (get_or_create (get_or_create rows name).2 name).1 = (get_or_create rows name).1 ∧
    (get_or_create (get_or_create rows name).2 name).2 = (get_or_create rows name).2 ∧
    (((get_or_create rows name).2).filter (fun r => r.name = name)).length = 1 := by
  cases hf : rows.find? (fun r => r.name = name) with
  | some r =>
    refine ⟨?_, ?_, ?_⟩
    · simp [get_or_create, hf]
    · simp [get_or_create, hf]
    · simp only [get_or_create, hf]
      exact filter_name_length_one rows name h r hf
  | none =>
    have hfind2 : (rows ++ [(⟨freshId (rows.map (fun r => r.id)), name⟩ : TaxRow)]).find?
        (fun r => r.name = name) = some (⟨freshId (rows.map (fun r => r.id)), name⟩ : TaxRow) := by
      rw [find?_append_none _ hf]
      simp [List.find?]
    have h0 : rows.filter (fun r => r.name = name) = [] := by
      rw [List.find?_eq_none] at hf
      exact List.filter_eq_nil_iff.mpr hf
    refine ⟨?_, ?_, ?_⟩
    · simp [get_or_create, hf, hfind2]
    · simp [get_or_create, hf, hfind2]
    · simp [get_or_create, hf, List.filter_append, h0, List.filter]

/-- C9 witness: on the empty table, both calls with name x return id 1
and the table ends with exactly one row named x. -/
theorem get_or_create_stable_witness :
    ([] : List TaxRow).map (fun r => r.name) = [] ∧
    ((get_or_create (get_or_create [] "x").2 "x").1 = (get_or_create [] "x").1 ∧
     (get_or_create (get_or_create [] "x").2 "x").2 = (get_or_create [] "x").2 ∧
     (((get_or_create [] "x").2).filter (fun r => r.name = "x")).length = 1) :=
  ⟨rfl, get_or_create_stable [] "x" (by simp)⟩

/-- C7: of the four concrete quantity parses the spec lists, three hold
exactly as stated (half tsp gives (0.5, tsp); to taste gives (absent,
to taste); 300 g gives (300.0, g)); but on the input 2 1/2 cups the code
returns quantity 20.5 (the Dec 41 over 2) with unit 5 cups, not the
specified (2.5, cups): after the fraction token is rewritten to 0.5, the
digit scan joins every digit of the whole cleaned string 2 0.5 cups into
20.5, and the unit is sliced at the wrong offset. -/
theorem parse_quantity_concrete_cases :
    parse_quantity "2 1/2 cups" = (some ⟨41, 2⟩, "5 cups") ∧
    parse_quantity "½ tsp" = (some ⟨1, 2⟩, "tsp") ∧
    parse_quantity "to taste" = (none, "to taste") ∧
    parse_quantity "300 г" = (some ⟨300, 1⟩, "г") :=
  ⟨by decide, by decide, by decide, by decide⟩

/-- C8 counterexample: on the failing input consisting of a vulgar half,
a slash and a zero, the returned unit is the fraction replaced text, not
the unmodified original input. -/
theorem parse_quantity_failure_replaced_cex :
    parse_quantity "½/0" = (none, "0.5/0") ∧ ¬ ("0.5/0" = "½/0") :=
  ⟨by decide, by decide⟩

/-- C8 amended: on every input whose quantity parse fails (zero
denominators and non numeric parts included), parse_quantity returns
(absent, t) and raises nothing, where t is the input after the vulgar
fraction replacements (which is the unmodified input exactly when the
input holds no vulgar fraction character, but differs otherwise, since
the source reassigns the text variable before the try body can fail). -/
theorem parse_quantity_failure_returns_replaced (text : String)
    (h : parseQuantityAux (vulgarReplace text) = none) :
    parse_quantity text = (none, vulgarReplace text) := by
  simp [parse_quantity, h]

/-- C8 amended witness: the division by zero input fails and returns the
replaced text. -/
theorem parse_quantity_failure_returns_replaced_witness :
    parseQuantityAux (vulgarReplace "½/0") = none ∧
    parse_quantity "½/0" = (none, vulgarReplace "½/0") :=
  ⟨by decide, parse_quantity_failure_returns_replaced "½/0" (by decide)⟩

/-- C10: DatabaseManager.insert_recipe returns None and leaves the store
unchanged on every input: the content hash expression raises before any
SQL statement of the function runs (hexdigest is invoked on a str), the
except handler rolls the transaction back, and nothing is ever
committed by this function. -/
theorem insert_recipe_always_none (s : DbmState) (rd : RecipeInput) :
    insert_recipe s rd = (none, s) := rfl

/-- C2 counterexample: two pages with identical extracted canonical
fields (title, characteristics, line items) but different raw markup
hash differently, and re-fetching the same url whose markup alone
changed takes the updated outcome, because calculate_hash is applied to
response.text (the raw page markup), not to a canonical serialization
of the extracted fields. -/
theorem hash_ignores_markup_cex :
    canonicalFields pageA = canonicalFields pageB ∧
    ¬ pageA.text = pageB.text ∧
    ¬ calculate_hash pageA.text = calculate_hash pageB.text ∧
    (parse_recipe_page (parse_recipe_page emptyDB "u" pagesA 0).2 "u" pagesB 1).1 =
      Outcome.updated :=
  ⟨by decide, by decide, by decide, by decide⟩

/-- C2 amended: content_hash is computed over the raw response text, so
the hash of a page is the digest of its markup: whenever the raw text
served for a url changes in any way (inside or outside the extracted
fields), the next processing of that url takes the updated outcome. -/
theorem hash_raw_markup_forces_update (db : DB) (url : String)
    (pages pages2 : String → Page) (now now2 : Nat)
    (h : ¬ (pages url).text = (pages2 url).text) :
    (parse_recipe_page (parse_recipe_page db url pages now).2 url pages2 now2).1 =
      Outcome.updated := by
  obtain ⟨r, hr, hrh⟩ := step_hash_est db url pages now
  have hne : ¬ r.content_hash = calculate_hash (pages2 url).text := by
    rw [hrh]
    exact fun hEq => h hEq
  rw [parse_page_diff _ url pages2 now2 r hr hne]

/-- C2 amended witness: markup only change between two fetches of url u
forces the updated outcome. -/
theorem hash_raw_markup_forces_update_witness :
    ¬ (pagesA "u").text = (pagesB "u").text ∧
    (parse_recipe_page (parse_recipe_page emptyDB "u" pagesA 0).2 "u" pagesB 1).1 =
      Outcome.updated :=
  ⟨by decide, hash_raw_markup_forces_update emptyDB "u" pagesA pagesB 0 1 (by decide)⟩

/-- C5 counterexample: a detail page with no title element is not skipped:
processing it inserts a recipe row whose title is the empty string, so a
record is written for a url whose required title could not be
extracted. -/
theorem missing_title_written_cex :
    pageNoTitle.titleElem = none ∧
    (parse_recipe_page emptyDB "u" pagesNoTitle 0).1 = Outcome.inserted ∧
    (parse_recipe_page emptyDB "u" pagesNoTitle 0).2.recipe.map (fun r => (r.title, r.url)) =
      [("", "u")] :=
  ⟨rfl, by decide, by decide⟩

/-- C5 amended: a missing title is not a hard failure: extraction
defaults the title to the empty string and the record is still written;
for an unseen url the row is inserted with empty title. -/
theorem missing_title_inserts_empty (db : DB) (url : String) (pages : String → Page) (now : Nat)
    (h1 : (pages url).titleElem = none) (h2 : findRecipe db url = none) :
    (parse_recipe_page db url pages now).1 = Outcome.inserted ∧
    (parse_recipe_page db url pages now).2.recipe.map (fun r => (r.title, r.url)) =
      db.recipe.map (fun r => (r.title, r.url)) ++ [("", url)] := by
  rw [parse_page_none db url pages now h2]
  refine ⟨rfl, ?_⟩
  simp [save_none_recipe, List.map_append, newRow_title, newRow_url, extract_rd_title,
    extract_rd_url, h1]

/-- C5 amended witness: the no title fixture page is inserted with empty
title. -/
theorem missing_title_inserts_empty_witness :
    (pagesNoTitle "u").titleElem = none ∧ findRecipe emptyDB "u" = none ∧
    ((parse_recipe_page emptyDB "u" pagesNoTitle 0).1 = Outcome.inserted ∧
     (parse_recipe_page emptyDB "u" pagesNoTitle 0).2.recipe.map (fun r => (r.title, r.url)) =
       emptyDB.recipe.map (fun r => (r.title, r.url)) ++ [("", "u")]) :=
  ⟨rfl, rfl, missing_title_inserts_empty emptyDB "u" pagesNoTitle 0 rfl rfl⟩

/-- C6 counterexample: a storage fault at the first ingredient insert of
an update leaves the store with the recipe row already updated to the
new hash and all its ingredient rows deleted; the resulting state is
committed (main commits after parse_recipe_page returns), so the item
leaves partial writes, it is not rolled back. -/
theorem storage_fault_partial_commit_cex :
    (parse_recipe_page_faulty dbStale "u" pagesNew 5 (some (SaveFault.atIngr 0))).1 = none ∧
    ¬ (parse_recipe_page_faulty dbStale "u" pagesNew 5 (some (SaveFault.atIngr 0))).2 = dbStale ∧
    (parse_recipe_page_faulty dbStale "u" pagesNew 5 (some (SaveFault.atIngr 0))).2.ingredient =
      [] ∧
    ¬ dbStale.ingredient = [] ∧
    (parse_recipe_page_faulty dbStale "u" pagesNew 5 (some (SaveFault.atIngr 0))).2.recipe.map
      (fun r => r.content_hash) = ["new"] :=
  ⟨by decide, by decide, by decide, by decide, by decide⟩

/-- C6 amended: when a storage fault occurs while saving one item, the
exception is caught and logged inside parse_recipe_page (the caller sees
no exception and no outcome) and the run continues with the next item,
so a single bad row never aborts the run; but the writes the item made
before the fault are committed and carried forward, not rolled back,
because the rollback in main is unreachable for exceptions that
parse_recipe_page swallows. -/
theorem storage_fault_swallowed_run_continues (db : DB) (u : String) (rest : List String)
    (pages : String → Page) (now : Nat) (faults : String → Option SaveFault)
    (h : save_raises db u pages now (faults u) = true) :
    (parse_recipe_page_faulty db u pages now (faults u)).1 = none ∧
    runFaulty db (u :: rest) pages now faults =
      runFaulty (parse_recipe_page_faulty db u pages now (faults u)).2 rest pages now faults := by
  refine ⟨?_, rfl⟩
  unfold save_raises at h
  unfold parse_recipe_page_faulty
  cases hf : findRecipe db u with
  | some r =>
    simp only [hf] at h ⊢
    rw [Bool.and_eq_true] at h
    have hne : ¬ r.content_hash = calculate_hash (pages u).text := bne_iff_ne.mp h.1
    simp [hne, h.2]
  | none =>
    simp only [hf] at h ⊢
    simp [h]

/-- C6 amended witness: the stale store scenario with a fault at the
first ingredient insert is swallowed and the run continues over the
remaining urls from the partially written state. -/
theorem storage_fault_swallowed_run_continues_witness :
    save_raises dbStale "u" pagesNew 5 (faultsIngr0 "u") = true ∧
    ((parse_recipe_page_faulty dbStale "u" pagesNew 5 (faultsIngr0 "u")).1 = none ∧
     runFaulty dbStale ["u", "v"] pagesNew 5 faultsIngr0 =
       runFaulty (parse_recipe_page_faulty dbStale "u" pagesNew 5 (faultsIngr0 "u")).2 ["v"]
         pagesNew 5 faultsIngr0) :=
  ⟨by decide,
   storage_fault_swallowed_run_continues dbStale "u" ["v"] pagesNew 5 faultsIngr0 (by decide)⟩

/-- C1: the upsert decision for an item url is exactly three way.  When no
row with the url exists, the outcome is inserted, a new recipe row with
that url and the computed hash is appended, and its ingredient rows are
exactly the extracted ones.  When a row exists with the same stored
hash, the call returns unchanged with the store bit for bit untouched.
When a row exists with a different hash, the outcome is updated, no row
is added or removed (the url column multiset is unchanged), the row now
carries the new hash under its old id, and its ingredient rows are
deleted and re-inserted as the extracted batch.  The case split on the
lookup and hash comparison is exhaustive, so no other write path
exists. -/
theorem upsert_three_way (db : DB) (url : String) (pages : String → Page) (now : Nat) :
    (findRecipe db url = none →
      (parse_recipe_page db url pages now).1 = Outcome.inserted ∧
      (parse_recipe_page db url pages now).2.recipe.map (fun r => (r.url, r.content_hash)) =
        db.recipe.map (fun r => (r.url, r.content_hash)) ++
          [(url, calculate_hash (pages url).text)] ∧
      ingredientsFor (parse_recipe_page db url pages now).2
          (freshId (db.recipe.map (fun r => r.id))) =
        extractedProj (extract_ingredients (pages url))) ∧
    (∀ r0, findRecipe db url = some r0 →
      r0.content_hash = calculate_hash (pages url).text →
      parse_recipe_page db url pages now = (Outcome.unchanged, db)) ∧
    (∀ r0, findRecipe db url = some r0 →
      ¬ r0.content_hash = calculate_hash (pages url).text →
      (parse_recipe_page db url pages now).1 = Outcome.updated ∧
      (parse_recipe_page db url pages now).2.recipe.map (fun r => r.url) =
        db.recipe.map (fun r => r.url) ∧
      (∃ r1, findRecipe (parse_recipe_page db url pages now).2 url = some r1 ∧
        r1.id = r0.id ∧ r1.content_hash = calculate_hash (pages url).text) ∧
      ingredientsFor (parse_recipe_page db url pages now).2 r0.id =
        extractedProj (extract_ingredients (pages url))) := by
  refine ⟨?_, ?_, ?_⟩
  · intro h
    rw [parse_page_none db url pages now h]
    refine ⟨rfl, ?_, ?_⟩
    · simp [save_none_recipe, List.map_append]
    · unfold ingredientsFor
      rw [save_none_ingredient, extract_recipe_table, extract_ingredient_table]
      exact ingredientsFor_after_insert _ _ _
  · intro r0 hf he
    exact parse_page_same db url pages now r0 hf he
  · intro r0 hf he
    rw [parse_page_diff db url pages now r0 hf he]
    refine ⟨rfl, ?_, ?_, ?_⟩
    · simp [save_some_recipe, List.map_map, Function.comp_def, updWith_url]
    · refine ⟨updWith (extract_recipe_data db (pages url) url
        (calculate_hash (pages url).text) now).1 r0.id r0, ?_, ?_, ?_⟩
      · unfold findRecipe at hf ⊢
        simp only [save_some_recipe, extract_recipe_table]
        rw [find?_map_pres _ _ _ (fun x => by rw [updWith_url]), hf]
        rfl
      · rw [updWith_id]
      · unfold updWith
        simp
    · unfold ingredientsFor
      rw [save_some_ingredient, extract_ingredient_table]
      exact ingredientsFor_after_insert _ _ _

/-- C1 witness: on the empty store and the fixture page, the url is
unseen, and the inserted branch postconditions hold concretely. -/
theorem upsert_three_way_witness :
    findRecipe emptyDB "u" = none ∧
    ((parse_recipe_page emptyDB "u" pagesA 0).1 = Outcome.inserted ∧
     (parse_recipe_page emptyDB "u" pagesA 0).2.recipe.map (fun r => (r.url, r.content_hash)) =
       emptyDB.recipe.map (fun r => (r.url, r.content_hash)) ++
         [("u", calculate_hash (pagesA "u").text)] ∧
     ingredientsFor (parse_recipe_page emptyDB "u" pagesA 0).2
         (freshId (emptyDB.recipe.map (fun r => r.id))) =
       extractedProj (extract_ingredients (pagesA "u"))) :=
  ⟨rfl, (upsert_three_way emptyDB "u" pagesA 0).1 rfl⟩

/-- C3: if a full run is executed twice with the remote site unchanged in
between (the same fetch function serves both runs), the second run
performs no write at all: every outcome is unchanged and the store after
the second run is exactly the store after the first (distinct primary
key ids assumed, as the schema guarantees). -/
theorem second_run_no_writes (db : DB) (urls : List String) (pages : String → Page)
    (now now2 : Nat) (h : IdsOk db) :
    run (run db urls pages now).2 urls pages now2 =
      (List.replicate urls.length Outcome.unchanged, (run db urls pages now).2) := by
  apply run_all_unchanged
  exact run_hash_est urls pages now db h

/-- C3 witness: from the empty store, a second run over one url yields the
unchanged outcome and the same store. -/
theorem second_run_no_writes_witness :
    IdsOk emptyDB ∧
    run (run emptyDB ["u"] pagesA 0).2 ["u"] pagesA 1 =
      ([Outcome.unchanged], (run emptyDB ["u"] pagesA 0).2) :=
  ⟨by simp [IdsOk, emptyDB], second_run_no_writes emptyDB ["u"] pagesA 0 1 (by simp [IdsOk, emptyDB])⟩

/-- C4: no two recipe rows ever share a url: the uniqueness invariant is
preserved by every run, and processing a url that already has a row
never takes the inserted outcome and never changes the url column, so
it resolves to update or skip, never to a second row. -/
theorem url_unique_upsert (db : DB) (urls : List String) (pages : String → Page) (now : Nat)
    (h1 : UrlsOk db) :
    UrlsOk (run db urls pages now).2 ∧
    (∀ u r0, findRecipe db u = some r0 →
      ¬ (parse_recipe_page db u pages now).1 = Outcome.inserted ∧
      (parse_recipe_page db u pages now).2.recipe.map (fun r => r.url) =
        db.recipe.map (fun r => r.url)) := by
  constructor
  · exact run_urls urls pages now db h1
  · intro u r0 hf
    by_cases he : r0.content_hash = calculate_hash (pages u).text
    · rw [parse_page_same db u pages now r0 hf he]
      exact ⟨by simp, rfl⟩
    · rw [parse_page_diff db u pages now r0 hf he]
      refine ⟨by simp, ?_⟩
      simp [save_some_recipe, List.map_map, Function.comp_def, updWith_url]

/-- C4 witness: on the stale store fixture (one row, url u), a run
preserves url distinctness. -/
theorem url_unique_upsert_witness :
    UrlsOk dbStale ∧ UrlsOk (run dbStale ["u"] pagesNew 0).2 :=
  ⟨by simp [UrlsOk, dbStale, emptyDB],
   (url_unique_upsert dbStale ["u"] pagesNew 0 (by simp [UrlsOk, dbStale, emptyDB])).1⟩
